import Mathlib

/-!
Verification of the Extraction & Incremental Archive Engine of
`generate_briefing.py` (repository `bboyett/ai-briefing`).

The embedding translates the Python source directly:

* Python string slicing `s[:n]` is `pySlice`, `s.startswith(p)` is
  `pyStartswith`, `needle in hay` (substring test) is `pyIn`.
* The HTML/XML library calls (`get_text(strip=True)`, tag lookup) are
  abstracted at their output level: an `RssItem` carries the stripped
  text of its `<title>`, `<link>`, `<description>` tags (`none` when the
  tag is absent) and the lower-cased stripped texts of its `<category>`
  tags; an `Anchor` carries its `href`, the stripped text of a `<p>`
  descendant if one exists, and the anchor's own stripped text.
* A run-time exception raised while fetching or while walking the
  parsed document is modelled as an `err` token in the token stream:
  processing that reaches an `err` token behaves exactly as the Python
  `try`/`except` blocks do at that point (`parse_rss` re-raises, lines
  140-141; `scrape_rundown_ai` falls through to `return stories`,
  lines 175-177; the `scrape_*` wrappers return `[]`, e.g. lines
  148-150).
-/

namespace Briefing

/-- Python string slice `s[:n]`. -/
def pySlice (s : String) (n : Nat) : String := ⟨s.data.take n⟩

/-- Python `s.startswith(p)`. -/
def pyStartswith (s p : String) : Bool := p.data.isPrefixOf s.data

/-- Does `needle` occur as a contiguous subsequence of the second list? -/
def containsSeq (needle : List Char) : List Char → Bool
  | [] => needle.isEmpty
  | c :: rest => needle.isPrefixOf (c :: rest) || containsSeq needle rest

/-- Python substring test `needle in hay`. -/
def pyIn (needle hay : String) : Bool := containsSeq needle.data hay.data

/-- A story candidate `{title, link, summary}` (`parse_rss` line 136,
`scrape_rundown_ai` lines 168-172). -/
structure Story where
  title : String
  link : String
  summary : String
deriving DecidableEq

/-- One `<item>` of a feed, at the level the code reads it:
`title`/`link`/`desc` are the stripped texts of the corresponding tags
(`none` when the tag is absent); `cats` are the lower-cased stripped
texts of the `<category>` tags (line 126); `desc` is the text of the
description after the inner `BeautifulSoup(...).get_text(strip=True)`
markup strip of line 132. -/
structure RssItem where
  title : Option String
  link : Option String
  desc : Option String
  cats : List String
deriving DecidableEq

/-- Token stream seen by `parse_rss`: the items of the document in
order, with `err` marking the point where a run-time exception occurs. -/
inductive RssToken where
  | item (it : RssItem)
  | err
deriving DecidableEq

/-- The AI-relevance category check of line 127. -/
def aiRelevant (cats : List String) : Bool :=
  cats.any (fun c => pyIn "ai" c || pyIn "machine learning" c || pyIn "artificial" c)

/-- The `summary` local of `parse_rss` (lines 130-133): the stripped
description cut to 220, or `""` when the description tag is absent. -/
def rssSummary (it : RssItem) : String :=
  match it.desc with
  | some d => pySlice d 220
  | none => ""

/-- Lines 135-136 of `parse_rss`: append the story (title cut to 120)
when `len(title) > 5`, else leave `stories` unchanged. -/
def rssStep (stories : List Story) (t l sm : String) : List Story :=
  if 5 < t.length then stories ++ [⟨pySlice t 120, l, sm⟩] else stories

/-- The `for item in soup.find_all("item")` loop of `parse_rss`
(lines 114-139), with `stories` the accumulator.  Missing title or
link skips the item (lines 119-120); a failing AI filter skips the
item (lines 125-128); `rssStep` appends the item (lines 130-136); the
loop breaks once `len(stories) >= limit` (lines 138-139).  An `err`
token raises: the `except` clause of lines 140-141 re-raises, so the
whole call fails. -/
def parseRssGo (ai_filter : Bool) (limit : Nat) :
    List RssToken → List Story → Except Unit (List Story)
  | [], stories => .ok stories
  | .err :: _, _ => .error ()
  | .item it :: rest, stories =>
    match it.title, it.link with
    | some t, some l =>
      if ai_filter && !(aiRelevant it.cats) then
        parseRssGo ai_filter limit rest stories
      else
        if limit ≤ (rssStep stories t l (rssSummary it)).length then
          .ok (rssStep stories t l (rssSummary it))
        else parseRssGo ai_filter limit rest (rssStep stories t l (rssSummary it))
    | _, _ => parseRssGo ai_filter limit rest stories

/-- `parse_rss(url, limit, ai_filter)` (lines 105-142), as a function of
the fetched document's token stream.  `.error ()` is the re-raised
exception of lines 140-141. -/
def parse_rss (toks : List RssToken) (limit : Nat) (ai_filter : Bool) :
    Except Unit (List Story) :=
  parseRssGo ai_filter limit toks []

/-- The `try: return parse_rss(...) except: return []` wrapper shared by
the five feed scrapers (e.g. `scrape_techcrunch_ai`, lines 145-150). -/
def feedScrape (toks : List RssToken) (limit : Nat) (ai_filter : Bool) : List Story :=
  match parse_rss toks limit ai_filter with
  | .ok stories => stories
  | .error _ => []

def scrape_techcrunch_ai (toks : List RssToken) : List Story := feedScrape toks 6 false

def scrape_verge_ai (toks : List RssToken) : List Story := feedScrape toks 6 false

/-- `scrape_venturebeat_ai` passes `ai_filter=True` (line 190). -/
def scrape_venturebeat_ai (toks : List RssToken) : List Story := feedScrape toks 6 true

def scrape_nytimes_ai (toks : List RssToken) : List Story := feedScrape toks 6 false

def scrape_mit_ai (toks : List RssToken) : List Story := feedScrape toks 6 false

/-- One `<a href=...>` element of the Rundown articles page, at the
level `scrape_rundown_ai` reads it: its `href`, the stripped text of a
`<p>` descendant if one exists (`a.find("p")`, line 164), and the
anchor's own stripped text (line 165). -/
structure Anchor where
  href : String
  pText : Option String
  aText : String
deriving DecidableEq

/-- Token stream seen by `scrape_rundown_ai`: the anchors of the page in
order, with `err` marking the point where a run-time exception occurs. -/
inductive PageToken where
  | anchor (a : Anchor)
  | err
deriving DecidableEq

/-- `title = p.get_text(strip=True) if p else a.get_text(strip=True)[:120]`
(line 165).  Note the `[:120]` cut applies only in the no-`<p>` branch. -/
def rundownTitle (a : Anchor) : String :=
  match a.pText with
  | some t => t
  | none => pySlice a.aText 120

/-- The story built from an accepted anchor (lines 168-172). -/
def rundownStory (a : Anchor) : Story :=
  ⟨rundownTitle a, "https://www.therundown.ai" ++ a.href, ""⟩

/-- Line 167: `seen.add(href)` happens only when the anchor is fresh
and its title long enough (line 166). -/
def rundownSeenStep (seen : List String) (a : Anchor) : List String :=
  if a.href ∉ seen ∧ 10 < (rundownTitle a).length then a.href :: seen else seen

/-- Lines 166-172: append the anchor's story when it is fresh and its
title long enough, else leave `stories` unchanged. -/
def rundownStoriesStep (seen : List String) (stories : List Story) (a : Anchor) :
    List Story :=
  if a.href ∉ seen ∧ 10 < (rundownTitle a).length then
    stories ++ [rundownStory a] else stories

/-- The `for a in soup.find_all("a", href=True)` loop of
`scrape_rundown_ai` (lines 160-174): anchors whose `href` does not
start with `/articles/` are skipped (lines 162-163); a fresh `href`
with `len(title) > 10` is recorded in `seen` and appended (lines
166-172); the loop breaks once `len(stories) >= 6` (lines 173-174).
An `err` token raises: the `except` clause of lines 175-176 only
prints, and control falls through to `return stories` (line 177), so
the candidates gathered so far are returned. -/
def rundownGo : List PageToken → List String → List Story → List Story
  | [], _, stories => stories
  | .err :: _, _, stories => stories
  | .anchor a :: rest, seen, stories =>
    if pyStartswith a.href "/articles/" then
      if 6 ≤ (rundownStoriesStep seen stories a).length then
        rundownStoriesStep seen stories a
      else rundownGo rest (rundownSeenStep seen a) (rundownStoriesStep seen stories a)
    else rundownGo rest seen stories

/-- `scrape_rundown_ai` (lines 153-177) as a function of the fetched
page's token stream. -/
def scrape_rundown_ai (toks : List PageToken) : List Story := rundownGo toks [] []

/-- The fixed source registry, `SCRAPERS` keys (lines 215-222), in
dictionary insertion order. -/
inductive Slug where
  | techcrunch
  | rundown
  | verge
  | venturebeat
  | nyt
  | mit
deriving DecidableEq

def slugStr : Slug → String
  | .techcrunch => "techcrunch"
  | .rundown => "rundown"
  | .verge => "verge"
  | .venturebeat => "venturebeat"
  | .nyt => "nyt"
  | .mit => "mit"

/-- What one source's URL yields when fetched and parsed this run: the
item stream an XML parse would see and the anchor stream an HTML parse
would see.  A fetch failure (`requests.get` raising) is the streams
that fail immediately, `fetchFailure`. -/
structure SourceInput where
  rss : List RssToken
  page : List PageToken

/-- A fetch that raises before producing any content. -/
def fetchFailure : SourceInput := ⟨[RssToken.err], [PageToken.err]⟩

/-- The `SCRAPERS` dispatch table (lines 215-222): each slug's scraper
applied to that source's fetched content. -/
def SCRAPERS (sl : Slug) (inp : SourceInput) : List Story :=
  match sl with
  | .techcrunch => scrape_techcrunch_ai inp.rss
  | .rundown => scrape_rundown_ai inp.page
  | .verge => scrape_verge_ai inp.rss
  | .venturebeat => scrape_venturebeat_ai inp.rss
  | .nyt => scrape_nytimes_ai inp.rss
  | .mit => scrape_mit_ai inp.rss

def SLUG_ORDER : List Slug :=
  [.techcrunch, .rundown, .verge, .venturebeat, .nyt, .mit]

/-- Step 1 of `__main__` (lines 769-774): `raw_results`, the mapping
slug → scraped stories, built by running every scraper on what its URL
returned (`env`). -/
def runScrapers (env : Slug → SourceInput) : List (String × List Story) :=
  SLUG_ORDER.map (fun sl => (slugStr sl, SCRAPERS sl (env sl)))

/-- One element of `entries.json`: `{date_str, display_date, sources}`
(lines 794-798). -/
structure IssueEntry where
  date_str : String
  display_date : String
  sources : List String
deriving DecidableEq

/-- One element of a slug's list in `source_data.json`:
`{date_str, display_date, articles}` (lines 810-814). -/
structure DayEntry where
  date_str : String
  display_date : String
  articles : List Story
deriving DecidableEq

/-- `existing = next((e for e in entries if e["date_str"] == date_str), None);
existing["sources"] = successful_slugs` (lines 790-792): the first
entry whose `date_str` matches gets its `sources` replaced in place. -/
def setFirstSources (d : String) (slugs : List String) :
    List IssueEntry → List IssueEntry
  | [] => []
  | e :: rest =>
    if e.date_str = d then { e with sources := slugs } :: rest
    else e :: setFirstSources d slugs rest

/-- Step 4 of `__main__` (lines 789-798): update the matching entry in
place if one exists, else `entries.insert(0, ...)`. -/
def updateEntries (entries : List IssueEntry) (date_str display_date : String)
    (slugs : List String) : List IssueEntry :=
  if entries.any (fun e => e.date_str == date_str) then
    setFirstSources date_str slugs entries
  else
    ⟨date_str, display_date, slugs⟩ :: entries

/-- `existing_entry = next((e for e in source_data[slug] if ...), None);
existing_entry["articles"] = stories` (lines 806-808). -/
def setFirstArticles (d : String) (arts : List Story) :
    List DayEntry → List DayEntry
  | [] => []
  | e :: rest =>
    if e.date_str = d then { e with articles := arts } :: rest
    else e :: setFirstArticles d arts rest

/-- The per-slug upsert of step 5 (lines 806-814): replace the matching
day entry's articles in place if one exists, else insert at the front. -/
def upsertDay (l : List DayEntry) (date_str display_date : String)
    (arts : List Story) : List DayEntry :=
  if l.any (fun e => e.date_str == date_str) then setFirstArticles date_str arts l
  else ⟨date_str, display_date, arts⟩ :: l

/-- One iteration of the `for slug, stories in results` loop of step 5:
only `source_data[slug]` changes.  The dictionary is modelled as a
total function defaulting to `[]`, which is what the
`if slug not in source_data: source_data[slug] = []` guard of lines
804-805 establishes. -/
def mergeSlug (sd : String → List DayEntry) (date_str display_date : String)
    (slug : String) (arts : List Story) : String → List DayEntry :=
  fun s => if s = slug then upsertDay (sd slug) date_str display_date arts else sd s

/-- Step 5 of `__main__` (lines 802-814): fold the per-slug upsert over
the run's non-empty results. -/
def mergeArchive (sd : String → List DayEntry) (date_str display_date : String)
    (results : List (String × List Story)) : String → List DayEntry :=
  results.foldl (fun acc p => mergeSlug acc date_str display_date p.1 p.2) sd

/-- The two persisted stores: `entries.json` and `source_data.json`. -/
structure Stores where
  entries : List IssueEntry
  source_data : String → List DayEntry

/-- Steps 2, 4 and 5 of `__main__` in one function: filter to sources
that returned something (line 777, Python truthiness of the list),
compute `successful_slugs` (line 778), update `entries.json` and
`source_data.json`. -/
def mergeRun (st : Stores) (date_str display_date : String)
    (raw_results : List (String × List Story)) : Stores :=
  let results := raw_results.filter (fun p => !p.2.isEmpty)
  let successful_slugs := results.map Prod.fst
  ⟨updateEntries st.entries date_str display_date successful_slugs,
   mergeArchive st.source_data date_str display_date results⟩

/-- The two JSON stores on disk. -/
inductive StoreFile where
  | entriesFile
  | sourceDataFile
deriving DecidableEq, BEq

/-- A persistence event.  `save_json` (lines 754-756) opens the target
path directly with `open(path, "w")` and writes into it: a direct
in-place `write`.  `tempSwap` (write to a temporary file, then atomic
rename over the target) is the alternative the code never performs. -/
inductive WriteEvent where
  | write (f : StoreFile)
  | tempSwap (f : StoreFile)
deriving DecidableEq, BEq

/-- Steps 4 and 5 of `__main__` with their persistence calls, in
program order: `save_json(ENTRIES_FILE, entries)` at line 799, then
`save_json(SOURCE_DATA_FILE, source_data)` at line 815. -/
def mergeAndSave (st : Stores) (date_str display_date : String)
    (raw_results : List (String × List Story)) : Stores × List WriteEvent :=
  (mergeRun st date_str display_date raw_results,
   [WriteEvent.write StoreFile.entriesFile, WriteEvent.write StoreFile.sourceDataFile])

/-- Which events of a persistence trace complete when writes to the
files selected by `fails` raise: the writes run sequentially and an
uncaught exception aborts the run at the first failing write
(`__main__` has no `try` around its `save_json` calls). -/
def persistRun (tr : List WriteEvent) (fails : StoreFile → Bool) : List WriteEvent :=
  tr.takeWhile (fun e => match e with
    | .write f => !fails f
    | .tempSwap f => !fails f)

/-- Number of issue entries carrying a given date key. -/
def countDate (l : List IssueEntry) (d : String) : Nat :=
  (l.filter (fun e => e.date_str == d)).length

/-- Number of archive day entries carrying a given date key. -/
def countDay (l : List DayEntry) (d : String) : Nat :=
  (l.filter (fun e => e.date_str == d)).length

lemma pySlice_length_le (s : String) (n : Nat) : (pySlice s n).length ≤ n := by
  show (s.data.take n).length ≤ n
  rw [List.length_take]
  exact Nat.min_le_left _ _

lemma string_append_left_cancel {p a b : String} (h : p ++ a = p ++ b) : a = b := by
  have hd : p.data ++ a.data = p.data ++ b.data := by
    rw [← String.data_append, ← String.data_append, h]
  have hab : a.data = b.data := List.append_cancel_left hd
  cases a
  cases b
  exact congrArg String.mk hab

lemma rssStep_length_le (stories : List Story) (t l sm : String) :
    (rssStep stories t l sm).length ≤ stories.length + 1 := by
  unfold rssStep
  by_cases h : 5 < t.length <;> simp [h]

lemma rssStep_bounds (stories : List Story) (t l sm : String)
    (hb : ∀ s ∈ stories, s.title.length ≤ 120 ∧ s.summary.length ≤ 220)
    (hsm : sm.length ≤ 220) :
    ∀ s ∈ rssStep stories t l sm, s.title.length ≤ 120 ∧ s.summary.length ≤ 220 := by
  unfold rssStep
  by_cases h : 5 < t.length
  · rw [if_pos h]
    intro s hs
    rcases List.mem_append.mp hs with hs | hs
    · exact hb s hs
    · rcases List.mem_singleton.mp hs with rfl
      exact ⟨pySlice_length_le t 120, hsm⟩
  · rw [if_neg h]
    exact hb

lemma rssSummary_length_le (it : RssItem) : (rssSummary it).length ≤ 220 := by
  unfold rssSummary
  cases it.desc with
  | none => exact Nat.zero_le 220
  | some d => exact pySlice_length_le d 220

lemma parseRssGo_length (f : Bool) (limit : Nat) :
    ∀ (toks : List RssToken) (stories res : List Story),
      stories.length < limit →
      parseRssGo f limit toks stories = .ok res → res.length ≤ limit
  | [], stories, res, hlt, hok => by
    simp only [parseRssGo, Except.ok.injEq] at hok
    subst hok
    exact Nat.le_of_lt hlt
  | .err :: rest, stories, res, hlt, hok => by
    simp only [parseRssGo] at hok
    exact Except.noConfusion hok
  | .item it :: rest, stories, res, hlt, hok => by
    obtain ⟨tOpt, lOpt, dOpt, cats⟩ := it
    cases tOpt with
    | none =>
      simp only [parseRssGo] at hok
      exact parseRssGo_length f limit rest stories res hlt hok
    | some t =>
      cases lOpt with
      | none =>
        simp only [parseRssGo] at hok
        exact parseRssGo_length f limit rest stories res hlt hok
      | some l =>
        simp only [parseRssGo] at hok
        by_cases hf : (f && !(aiRelevant cats)) = true
        · rw [if_pos hf] at hok
          exact parseRssGo_length f limit rest stories res hlt hok
        · rw [if_neg hf] at hok
          by_cases hle : limit ≤
              (rssStep stories t l (rssSummary ⟨some t, some l, dOpt, cats⟩)).length
          · rw [if_pos hle] at hok
            simp only [Except.ok.injEq] at hok
            subst hok
            have := rssStep_length_le stories t l
              (rssSummary ⟨some t, some l, dOpt, cats⟩)
            omega
          · rw [if_neg hle] at hok
            exact parseRssGo_length f limit rest _ res (Nat.lt_of_not_le hle) hok

lemma parseRssGo_bounds (f : Bool) (limit : Nat) :
    ∀ (toks : List RssToken) (stories res : List Story),
      (∀ s ∈ stories, s.title.length ≤ 120 ∧ s.summary.length ≤ 220) →
      parseRssGo f limit toks stories = .ok res →
      ∀ s ∈ res, s.title.length ≤ 120 ∧ s.summary.length ≤ 220
  | [], stories, res, hb, hok => by
    simp only [parseRssGo, Except.ok.injEq] at hok
    subst hok
    exact hb
  | .err :: rest, stories, res, hb, hok => by
    simp only [parseRssGo] at hok
    exact Except.noConfusion hok
  | .item it :: rest, stories, res, hb, hok => by
    obtain ⟨tOpt, lOpt, dOpt, cats⟩ := it
    cases tOpt with
    | none =>
      simp only [parseRssGo] at hok
      exact parseRssGo_bounds f limit rest stories res hb hok
    | some t =>
      cases lOpt with
      | none =>
        simp only [parseRssGo] at hok
        exact parseRssGo_bounds f limit rest stories res hb hok
      | some l =>
        simp only [parseRssGo] at hok
        have hstep : ∀ s ∈ rssStep stories t l (rssSummary ⟨some t, some l, dOpt, cats⟩),
            s.title.length ≤ 120 ∧ s.summary.length ≤ 220 :=
          rssStep_bounds stories t l _ hb (rssSummary_length_le _)
        by_cases hf : (f && !(aiRelevant cats)) = true
        · rw [if_pos hf] at hok
          exact parseRssGo_bounds f limit rest stories res hb hok
        · rw [if_neg hf] at hok
          by_cases hle : limit ≤
              (rssStep stories t l (rssSummary ⟨some t, some l, dOpt, cats⟩)).length
          · rw [if_pos hle] at hok
            simp only [Except.ok.injEq] at hok
            subst hok
            exact hstep
          · rw [if_neg hle] at hok
            exact parseRssGo_bounds f limit rest _ res hstep hok

lemma rundownGo_grows :
    ∀ (toks : List PageToken) (seen : List String) (stories : List Story),
      ∃ t, rundownGo toks seen stories = stories ++ t
  | [], _, stories => ⟨[], by simp [rundownGo]⟩
  | .err :: _, _, stories => ⟨[], by simp [rundownGo]⟩
  | .anchor a :: rest, seen, stories => by
    have hstep : rundownStoriesStep seen stories a = stories
        ∨ rundownStoriesStep seen stories a = stories ++ [rundownStory a] := by
      unfold rundownStoriesStep
      by_cases hc : a.href ∉ seen ∧ 10 < (rundownTitle a).length
      · exact Or.inr (by rw [if_pos hc])
      · exact Or.inl (by rw [if_neg hc])
    simp only [rundownGo]
    by_cases hp : pyStartswith a.href "/articles/" = true
    · rw [if_pos hp]
      by_cases h6 : 6 ≤ (rundownStoriesStep seen stories a).length
      · rw [if_pos h6]
        rcases hstep with h | h
        · exact ⟨[], by rw [h, List.append_nil]⟩
        · exact ⟨[rundownStory a], h⟩
      · rw [if_neg h6]
        obtain ⟨t, ht⟩ := rundownGo_grows rest (rundownSeenStep seen a)
          (rundownStoriesStep seen stories a)
        rcases hstep with h | h
        · exact ⟨t, by rw [ht, h]⟩
        · exact ⟨[rundownStory a] ++ t, by rw [ht, h, List.append_assoc]⟩
    · rw [if_neg hp]
      exact rundownGo_grows rest seen stories

lemma rundownGo_length_le :
    ∀ (toks : List PageToken) (seen : List String) (stories : List Story),
      stories.length < 6 → (rundownGo toks seen stories).length ≤ 6
  | [], _, stories, h => by
    simp only [rundownGo]
    exact Nat.le_of_lt h
  | .err :: _, _, stories, h => by
    simp only [rundownGo]
    exact Nat.le_of_lt h
  | .anchor a :: rest, seen, stories, h => by
    have hstep : (rundownStoriesStep seen stories a).length ≤ stories.length + 1 := by
      unfold rundownStoriesStep
      by_cases hc : a.href ∉ seen ∧ 10 < (rundownTitle a).length <;> simp [hc]
    simp only [rundownGo]
    by_cases hp : pyStartswith a.href "/articles/" = true
    · rw [if_pos hp]
      by_cases h6 : 6 ≤ (rundownStoriesStep seen stories a).length
      · rw [if_pos h6]
        omega
      · rw [if_neg h6]
        exact rundownGo_length_le rest _ _ (Nat.lt_of_not_le h6)
    · rw [if_neg hp]
      exact rundownGo_length_le rest seen stories h

lemma rundownGo_mem_src :
    ∀ (toks : List PageToken) (seen : List String) (stories : List Story)
      (s : Story), s ∈ rundownGo toks seen stories →
      s ∈ stories ∨ ∃ a, PageToken.anchor a ∈ toks ∧ s = rundownStory a
  | [], _, stories, s, hs => by
    simp only [rundownGo] at hs
    exact Or.inl hs
  | .err :: rest, _, stories, s, hs => by
    simp only [rundownGo] at hs
    exact Or.inl hs
  | .anchor a :: rest, seen, stories, s, hs => by
    have hstepcase : ∀ s', s' ∈ rundownStoriesStep seen stories a →
        s' ∈ stories ∨ s' = rundownStory a := by
      intro s' hs'
      unfold rundownStoriesStep at hs'
      by_cases hc : a.href ∉ seen ∧ 10 < (rundownTitle a).length
      · rw [if_pos hc] at hs'
        rcases List.mem_append.mp hs' with h | h
        · exact Or.inl h
        · exact Or.inr (List.mem_singleton.mp h)
      · rw [if_neg hc] at hs'
        exact Or.inl hs'
    simp only [rundownGo] at hs
    by_cases hp : pyStartswith a.href "/articles/" = true
    · rw [if_pos hp] at hs
      by_cases h6 : 6 ≤ (rundownStoriesStep seen stories a).length
      · rw [if_pos h6] at hs
        rcases hstepcase s hs with h | h
        · exact Or.inl h
        · exact Or.inr ⟨a, List.mem_cons_self _ _, h⟩
      · rw [if_neg h6] at hs
        rcases rundownGo_mem_src rest _ _ s hs with h | ⟨a', ha', hsa⟩
        · rcases hstepcase s h with h2 | h2
          · exact Or.inl h2
          · exact Or.inr ⟨a, List.mem_cons_self _ _, h2⟩
        · exact Or.inr ⟨a', List.mem_cons_of_mem _ ha', hsa⟩
    · rw [if_neg hp] at hs
      rcases rundownGo_mem_src rest seen stories s hs with h | ⟨a', ha', hsa⟩
      · exact Or.inl h
      · exact Or.inr ⟨a', List.mem_cons_of_mem _ ha', hsa⟩

lemma rundownGo_links_nodup :
    ∀ (toks : List PageToken) (seen : List String) (stories : List Story),
      (stories.map (fun s => s.link)).Nodup →
      (∀ s ∈ stories, ∃ h ∈ seen, s.link = "https://www.therundown.ai" ++ h) →
      ((rundownGo toks seen stories).map (fun s => s.link)).Nodup
  | [], _, stories, hnd, _ => by
    simp only [rundownGo]
    exact hnd
  | .err :: _, _, stories, hnd, _ => by
    simp only [rundownGo]
    exact hnd
  | .anchor a :: rest, seen, stories, hnd, hsub => by
    by_cases hc : a.href ∉ seen ∧ 10 < (rundownTitle a).length
    · have hstep : rundownStoriesStep seen stories a = stories ++ [rundownStory a] := by
        unfold rundownStoriesStep
        rw [if_pos hc]
      have hseen : rundownSeenStep seen a = a.href :: seen := by
        unfold rundownSeenStep
        rw [if_pos hc]
      have hnotin : (rundownStory a).link ∉ stories.map (fun s => s.link) := by
        intro hm
        obtain ⟨s, hsmem, hsl⟩ := List.mem_map.mp hm
        obtain ⟨h, hh, hl⟩ := hsub s hsmem
        have heq : "https://www.therundown.ai" ++ h
            = "https://www.therundown.ai" ++ a.href := by
          rw [← hl]
          exact hsl
        exact hc.1 (string_append_left_cancel heq ▸ hh)
      have hnd' : ((stories ++ [rundownStory a]).map (fun s => s.link)).Nodup := by
        rw [List.map_append]
        refine List.Nodup.append hnd (by simp) ?_
        intro x hx hx2
        simp only [List.map_cons, List.map_nil, List.mem_singleton] at hx2
        exact hnotin (hx2 ▸ hx)
      have hsub' : ∀ s ∈ stories ++ [rundownStory a],
          ∃ h ∈ a.href :: seen, s.link = "https://www.therundown.ai" ++ h := by
        intro s hs
        rcases List.mem_append.mp hs with h | h
        · obtain ⟨hh, hhm, hhl⟩ := hsub s h
          exact ⟨hh, List.mem_cons_of_mem _ hhm, hhl⟩
        · rcases List.mem_singleton.mp h with rfl
          exact ⟨a.href, List.mem_cons_self _ _, rfl⟩
      simp only [rundownGo]
      by_cases hp : pyStartswith a.href "/articles/" = true
      · rw [if_pos hp]
        by_cases h6 : 6 ≤ (rundownStoriesStep seen stories a).length
        · rw [if_pos h6, hstep]
          exact hnd'
        · rw [if_neg h6, hseen, hstep]
          exact rundownGo_links_nodup rest _ _ hnd' hsub'
      · rw [if_neg hp]
        exact rundownGo_links_nodup rest seen stories hnd hsub
    · have hstep : rundownStoriesStep seen stories a = stories := by
        unfold rundownStoriesStep
        rw [if_neg hc]
      have hseen : rundownSeenStep seen a = seen := by
        unfold rundownSeenStep
        rw [if_neg hc]
      simp only [rundownGo]
      by_cases hp : pyStartswith a.href "/articles/" = true
      · rw [if_pos hp]
        by_cases h6 : 6 ≤ (rundownStoriesStep seen stories a).length
        · rw [if_pos h6, hstep]
          exact hnd
        · rw [if_neg h6, hseen, hstep]
          exact rundownGo_links_nodup rest seen stories hnd hsub
      · rw [if_neg hp]
        exact rundownGo_links_nodup rest seen stories hnd hsub

lemma rundownTitle_le_of_none {a : Anchor} (h : a.pText = none) :
    (rundownTitle a).length ≤ 120 := by
  unfold rundownTitle
  rw [h]
  exact pySlice_length_le a.aText 120

lemma countDate_cons (e : IssueEntry) (l : List IssueEntry) (d : String) :
    countDate (e :: l) d = (if e.date_str = d then 1 else 0) + countDate l d := by
  by_cases h : e.date_str = d <;> simp [countDate, List.filter_cons, h, Nat.add_comm]

lemma countDate_setFirstSources (d d' : String) (slugs : List String) :
    ∀ l : List IssueEntry,
      countDate (setFirstSources d slugs l) d' = countDate l d'
  | [] => rfl
  | e :: rest => by
    by_cases h : e.date_str = d <;>
      simp [setFirstSources, h, countDate_cons, countDate_setFirstSources d d' slugs rest]

lemma countDate_pos_of_any {l : List IssueEntry} {d : String}
    (h : l.any (fun e => e.date_str == d) = true) : 0 < countDate l d := by
  rcases List.any_eq_true.mp h with ⟨e, he, hd⟩
  exact List.length_pos_of_mem (List.mem_filter.mpr ⟨he, hd⟩)

lemma countDate_eq_zero_of_any_false {l : List IssueEntry} {d : String}
    (h : l.any (fun e => e.date_str == d) = false) : countDate l d = 0 := by
  have h' := List.any_eq_false.mp h
  simp only [countDate, List.length_eq_zero]
  exact List.filter_eq_nil_iff.mpr h'

lemma not_mem_date_of_countDate_zero {l : List IssueEntry} {d : String}
    (h : countDate l d = 0) : ∀ e ∈ l, e.date_str ≠ d := by
  intro e he hd
  have hm : e ∈ l.filter (fun e => e.date_str == d) :=
    List.mem_filter.mpr ⟨he, by simp [hd]⟩
  have hp := List.length_pos_of_mem hm
  unfold countDate at h
  omega

lemma countDate_updateEntries (l : List IssueEntry) (d disp : String)
    (slugs : List String) (h : countDate l d ≤ 1) :
    countDate (updateEntries l d disp slugs) d = 1 := by
  unfold updateEntries
  by_cases ha : l.any (fun e => e.date_str == d) = true
  · rw [if_pos ha, countDate_setFirstSources]
    exact Nat.le_antisymm h (countDate_pos_of_any ha)
  · rw [if_neg ha, countDate_cons]
    have h0 : countDate l d = 0 :=
      countDate_eq_zero_of_any_false (by simpa using ha)
    simp [h0]

lemma sources_setFirstSources (d : String) (slugs : List String) :
    ∀ l : List IssueEntry, countDate l d ≤ 1 →
      ∀ e ∈ setFirstSources d slugs l, e.date_str = d → e.sources = slugs
  | [], _, e, he, _ => absurd he (List.not_mem_nil e)
  | e0 :: rest, h, e, he, hd => by
    by_cases h0 : e0.date_str = d
    · rw [setFirstSources, if_pos h0] at he
      rcases List.mem_cons.mp he with rfl | hmem
      · rfl
      · exfalso
        have hc : countDate rest d = 0 := by
          have := countDate_cons e0 rest d
          rw [if_pos h0] at this
          omega
        exact not_mem_date_of_countDate_zero hc e hmem hd
    · rw [setFirstSources, if_neg h0] at he
      rcases List.mem_cons.mp he with rfl | hmem
      · exact absurd hd h0
      · have hr : countDate rest d ≤ 1 := by
          have := countDate_cons e0 rest d
          rw [if_neg h0] at this
          omega
        exact sources_setFirstSources d slugs rest hr e hmem hd

lemma sources_updateEntries (l : List IssueEntry) (d disp : String)
    (slugs : List String) (h : countDate l d ≤ 1) :
    ∀ e ∈ updateEntries l d disp slugs, e.date_str = d → e.sources = slugs := by
  unfold updateEntries
  by_cases ha : l.any (fun e => e.date_str == d) = true
  · rw [if_pos ha]
    exact sources_setFirstSources d slugs l h
  · rw [if_neg ha]
    intro e he hd
    rcases List.mem_cons.mp he with rfl | hmem
    · rfl
    · exact absurd hd
        (not_mem_date_of_countDate_zero
          (countDate_eq_zero_of_any_false (by simpa using ha)) e hmem)

lemma filter_ne_setFirstSources (d : String) (slugs : List String) :
    ∀ l : List IssueEntry,
      (setFirstSources d slugs l).filter (fun e => e.date_str != d)
        = l.filter (fun e => e.date_str != d)
  | [] => rfl
  | e :: rest => by
    by_cases h : e.date_str = d <;>
      simp [setFirstSources, h, List.filter_cons, filter_ne_setFirstSources d slugs rest]

lemma filter_ne_updateEntries (l : List IssueEntry) (d disp : String)
    (slugs : List String) :
    (updateEntries l d disp slugs).filter (fun e => e.date_str != d)
      = l.filter (fun e => e.date_str != d) := by
  unfold updateEntries
  by_cases ha : l.any (fun e => e.date_str == d) = true
  · rw [if_pos ha]
    exact filter_ne_setFirstSources d slugs l
  · rw [if_neg ha]
    simp [List.filter_cons]

lemma countDay_cons (e : DayEntry) (l : List DayEntry) (d : String) :
    countDay (e :: l) d = (if e.date_str = d then 1 else 0) + countDay l d := by
  by_cases h : e.date_str = d <;> simp [countDay, List.filter_cons, h, Nat.add_comm]

lemma countDay_setFirstArticles (d d' : String) (arts : List Story) :
    ∀ l : List DayEntry,
      countDay (setFirstArticles d arts l) d' = countDay l d'
  | [] => rfl
  | e :: rest => by
    by_cases h : e.date_str = d <;>
      simp [setFirstArticles, h, countDay_cons, countDay_setFirstArticles d d' arts rest]

lemma countDay_pos_of_any {l : List DayEntry} {d : String}
    (h : l.any (fun e => e.date_str == d) = true) : 0 < countDay l d := by
  rcases List.any_eq_true.mp h with ⟨e, he, hd⟩
  exact List.length_pos_of_mem (List.mem_filter.mpr ⟨he, hd⟩)

lemma countDay_eq_zero_of_any_false {l : List DayEntry} {d : String}
    (h : l.any (fun e => e.date_str == d) = false) : countDay l d = 0 := by
  have h' := List.any_eq_false.mp h
  simp only [countDay, List.length_eq_zero]
  exact List.filter_eq_nil_iff.mpr h'

lemma not_mem_date_of_countDay_zero {l : List DayEntry} {d : String}
    (h : countDay l d = 0) : ∀ e ∈ l, e.date_str ≠ d := by
  intro e he hd
  have hm : e ∈ l.filter (fun e => e.date_str == d) :=
    List.mem_filter.mpr ⟨he, by simp [hd]⟩
  have hp := List.length_pos_of_mem hm
  unfold countDay at h
  omega

lemma countDay_upsertDay (l : List DayEntry) (d disp : String)
    (arts : List Story) (h : countDay l d ≤ 1) :
    countDay (upsertDay l d disp arts) d = 1 := by
  unfold upsertDay
  by_cases ha : l.any (fun e => e.date_str == d) = true
  · rw [if_pos ha, countDay_setFirstArticles]
    exact Nat.le_antisymm h (countDay_pos_of_any ha)
  · rw [if_neg ha, countDay_cons]
    have h0 : countDay l d = 0 :=
      countDay_eq_zero_of_any_false (by simpa using ha)
    simp [h0]

lemma articles_setFirstArticles (d : String) (arts : List Story) :
    ∀ l : List DayEntry, countDay l d ≤ 1 →
      ∀ e ∈ setFirstArticles d arts l, e.date_str = d → e.articles = arts
  | [], _, e, he, _ => absurd he (List.not_mem_nil e)
  | e0 :: rest, h, e, he, hd => by
    by_cases h0 : e0.date_str = d
    · rw [setFirstArticles, if_pos h0] at he
      rcases List.mem_cons.mp he with rfl | hmem
      · rfl
      · exfalso
        have hc : countDay rest d = 0 := by
          have := countDay_cons e0 rest d
          rw [if_pos h0] at this
          omega
        exact not_mem_date_of_countDay_zero hc e hmem hd
    · rw [setFirstArticles, if_neg h0] at he
      rcases List.mem_cons.mp he with rfl | hmem
      · exact absurd hd h0
      · have hr : countDay rest d ≤ 1 := by
          have := countDay_cons e0 rest d
          rw [if_neg h0] at this
          omega
        exact articles_setFirstArticles d arts rest hr e hmem hd

lemma articles_upsertDay (l : List DayEntry) (d disp : String)
    (arts : List Story) (h : countDay l d ≤ 1) :
    ∀ e ∈ upsertDay l d disp arts, e.date_str = d → e.articles = arts := by
  unfold upsertDay
  by_cases ha : l.any (fun e => e.date_str == d) = true
  · rw [if_pos ha]
    exact articles_setFirstArticles d arts l h
  · rw [if_neg ha]
    intro e he hd
    rcases List.mem_cons.mp he with rfl | hmem
    · rfl
    · exact absurd hd
        (not_mem_date_of_countDay_zero
          (countDay_eq_zero_of_any_false (by simpa using ha)) e hmem)

lemma filter_ne_setFirstArticles (d : String) (arts : List Story) :
    ∀ l : List DayEntry,
      (setFirstArticles d arts l).filter (fun e => e.date_str != d)
        = l.filter (fun e => e.date_str != d)
  | [] => rfl
  | e :: rest => by
    by_cases h : e.date_str = d <;>
      simp [setFirstArticles, h, List.filter_cons, filter_ne_setFirstArticles d arts rest]

lemma filter_ne_upsertDay (l : List DayEntry) (d disp : String)
    (arts : List Story) :
    (upsertDay l d disp arts).filter (fun e => e.date_str != d)
      = l.filter (fun e => e.date_str != d) := by
  unfold upsertDay
  by_cases ha : l.any (fun e => e.date_str == d) = true
  · rw [if_pos ha]
    exact filter_ne_setFirstArticles d arts l
  · rw [if_neg ha]
    simp [List.filter_cons]

lemma mergeArchive_eq_of_not_mem (d disp : String) :
    ∀ (results : List (String × List Story)) (sd : String → List DayEntry)
      (s : String), s ∉ results.map Prod.fst →
      mergeArchive sd d disp results s = sd s
  | [], _, _, _ => rfl
  | p :: rest, sd, s, h => by
    have hs : s ≠ p.1 := by
      intro he
      exact h (by simp [he])
    have hrest : s ∉ rest.map Prod.fst := by
      intro hm
      exact h (by simp [hm])
    show mergeArchive (mergeSlug sd d disp p.1 p.2) d disp rest s = sd s
    rw [mergeArchive_eq_of_not_mem d disp rest _ s hrest]
    simp [mergeSlug, hs]

lemma mergeArchive_eq_of_mem (d disp : String) :
    ∀ (results : List (String × List Story)) (sd : String → List DayEntry)
      (s : String) (v : List Story),
      (results.map Prod.fst).Nodup → (s, v) ∈ results →
      mergeArchive sd d disp results s = upsertDay (sd s) d disp v
  | [], _, _, _, _, hm => absurd hm (List.not_mem_nil _)
  | p :: rest, sd, s, v, hnd, hm => by
    rcases List.mem_cons.mp hm with he | hmem
    · have hs : s = p.1 := by rw [← he]
      have hv : v = p.2 := by rw [← he]
      have hnotin : s ∉ rest.map Prod.fst := by
        rw [hs]
        exact (List.nodup_cons.mp (by simpa using hnd)).1
      show mergeArchive (mergeSlug sd d disp p.1 p.2) d disp rest s
          = upsertDay (sd s) d disp v
      rw [mergeArchive_eq_of_not_mem d disp rest _ s hnotin]
      simp [mergeSlug, hs, hv]
    · have hsp : s ≠ p.1 := by
        intro he
        have h1 : p.1 ∉ rest.map Prod.fst :=
          (List.nodup_cons.mp (by simpa using hnd)).1
        exact h1 (he ▸ List.mem_map.mpr ⟨(s, v), hmem, rfl⟩)
      show mergeArchive (mergeSlug sd d disp p.1 p.2) d disp rest s
          = upsertDay (sd s) d disp v
      rw [mergeArchive_eq_of_mem d disp rest _ s v
        (List.nodup_cons.mp (by simpa using hnd)).2 hmem]
      simp [mergeSlug, hsp]

lemma countDay_mergeArchive_le (d disp : String) :
    ∀ (results : List (String × List Story)) (sd : String → List DayEntry),
      (∀ s, countDay (sd s) d ≤ 1) →
      ∀ s, countDay (mergeArchive sd d disp results s) d ≤ 1
  | [], _, h, s => h s
  | p :: rest, sd, h, s => by
    show countDay (mergeArchive (mergeSlug sd d disp p.1 p.2) d disp rest s) d ≤ 1
    refine countDay_mergeArchive_le d disp rest _ ?_ s
    intro s'
    by_cases hs : s' = p.1
    · simp only [mergeSlug, hs, if_pos rfl]
      exact Nat.le_of_eq (countDay_upsertDay _ d disp p.2 (h p.1))
    · simp only [mergeSlug, if_neg hs]
      exact h s'

lemma filter_ne_mergeArchive (d disp : String) :
    ∀ (results : List (String × List Story)) (sd : String → List DayEntry)
      (s : String),
      (mergeArchive sd d disp results s).filter (fun e => e.date_str != d)
        = (sd s).filter (fun e => e.date_str != d)
  | [], _, _ => rfl
  | p :: rest, sd, s => by
    show (mergeArchive (mergeSlug sd d disp p.1 p.2) d disp rest s).filter
        (fun e => e.date_str != d) = (sd s).filter (fun e => e.date_str != d)
    rw [filter_ne_mergeArchive d disp rest _ s]
    by_cases hs : s = p.1
    · simp only [mergeSlug, hs, if_pos rfl]
      exact filter_ne_upsertDay _ d disp p.2
    · simp only [mergeSlug, if_neg hs]

lemma countDate_mergeRun (st : Stores) (d disp : String)
    (raw : List (String × List Story)) (h : countDate st.entries d ≤ 1) :
    countDate (mergeRun st d disp raw).entries d = 1 :=
  countDate_updateEntries st.entries d disp _ h

lemma countDay_nil_le (s d : String) :
    countDay ((fun (_ : String) => ([] : List DayEntry)) s) d ≤ 1 := by
  simp [countDay]

/-- Empty initial stores: the first-run bootstrap, both JSON files
absent (`load_json` defaults, lines 747-751, 789, 802). -/
def st0 : Stores := ⟨[], fun _ => []⟩

def storyA : Story := ⟨"First-run headline", "https://ex.org/a", ""⟩

def storyB : Story := ⟨"Second-run headline", "https://ex.org/b", ""⟩

/-- C2: merging a run dated `d` never alters any issue entry or any
archive day entry whose date key differs from `d`: the sub-sequence of
entries with another key is unchanged, in content and relative order,
in both stores. -/
theorem history_preservation (st : Stores) (d disp : String)
    (raw : List (String × List Story)) :
    ((mergeRun st d disp raw).entries.filter (fun e => e.date_str != d)
        = st.entries.filter (fun e => e.date_str != d))
    ∧ ∀ slug : String,
        ((mergeRun st d disp raw).source_data slug).filter (fun e => e.date_str != d)
          = (st.source_data slug).filter (fun e => e.date_str != d) :=
  ⟨filter_ne_updateEntries st.entries d disp _,
   fun slug => filter_ne_mergeArchive d disp _ st.source_data slug⟩

/-- C5: after a merge, the (unique) issue entry for the run's date key
has `sources` containing exactly the slugs whose sequence in the run's
raw results is non-empty. -/
theorem active_sources_correct (st : Stores) (d disp : String)
    (raw : List (String × List Story)) (h : countDate st.entries d ≤ 1) :
    countDate (mergeRun st d disp raw).entries d = 1
    ∧ ∀ e ∈ (mergeRun st d disp raw).entries, e.date_str = d →
        ∀ s : String, s ∈ e.sources ↔ ∃ v, (s, v) ∈ raw ∧ v ≠ [] := by
  refine ⟨countDate_mergeRun st d disp raw h, ?_⟩
  intro e he hd s
  have hsrc : e.sources = (raw.filter (fun p => !p.2.isEmpty)).map Prod.fst :=
    sources_updateEntries st.entries d disp _ h e he hd
  rw [hsrc]
  constructor
  · intro hm
    obtain ⟨⟨p1, p2⟩, hp, hps⟩ := List.mem_map.mp hm
    obtain ⟨hpraw, hpne⟩ := List.mem_filter.mp hp
    dsimp at hps hpne
    subst hps
    exact ⟨p2, hpraw, by simpa using hpne⟩
  · rintro ⟨v, hv, hne⟩
    exact List.mem_map.mpr ⟨(s, v), List.mem_filter.mpr ⟨hv, by simpa using hne⟩, rfl⟩

/-- C5 witness: the theorem applied to the empty stores and a run where
`verge` returned one story and `mit` nothing. -/
theorem active_sources_correct_witness :
    countDate (mergeRun st0 "2025-06-01" "June 01, 2025"
        [("verge", [storyA]), ("mit", [])]).entries "2025-06-01" = 1 :=
  (active_sources_correct st0 "2025-06-01" "June 01, 2025"
    [("verge", [storyA]), ("mit", [])] (by decide)).1

/-- C1 (amended): merging the same date key twice leaves exactly one
issue entry for it (its `sources` those of the second run) and at most
one archive day entry per `(slug, date_key)`; for every slug whose
sequence in the second run is non-empty, that entry's articles are the
second run's.  (A slug active only in the first run keeps its stale
first-run entry; see the counterexample.) -/
theorem idempotent_rerun (st : Stores) (d disp1 disp2 : String)
    (raw1 raw2 : List (String × List Story))
    (h1 : countDate st.entries d ≤ 1)
    (h2 : ∀ s, countDay (st.source_data s) d ≤ 1)
    (h3 : (raw2.map Prod.fst).Nodup) :
    countDate (mergeRun (mergeRun st d disp1 raw1) d disp2 raw2).entries d = 1
    ∧ (∀ e ∈ (mergeRun (mergeRun st d disp1 raw1) d disp2 raw2).entries,
        e.date_str = d →
        e.sources = (raw2.filter (fun p => !p.2.isEmpty)).map Prod.fst)
    ∧ (∀ s, countDay
        ((mergeRun (mergeRun st d disp1 raw1) d disp2 raw2).source_data s) d ≤ 1)
    ∧ (∀ s v, (s, v) ∈ raw2 → v ≠ [] →
        ∀ de ∈ (mergeRun (mergeRun st d disp1 raw1) d disp2 raw2).source_data s,
          de.date_str = d → de.articles = v) := by
  have hA : countDate (mergeRun st d disp1 raw1).entries d ≤ 1 :=
    Nat.le_of_eq (countDate_mergeRun st d disp1 raw1 h1)
  have hB : ∀ s, countDay ((mergeRun st d disp1 raw1).source_data s) d ≤ 1 :=
    countDay_mergeArchive_le d disp1 _ st.source_data h2
  refine ⟨countDate_mergeRun _ d disp2 raw2 hA,
    fun e he hd => sources_updateEntries _ d disp2 _ hA e he hd,
    countDay_mergeArchive_le d disp2 _ _ hB, ?_⟩
  intro s v hv hvne de hde hdd
  have hnd2 : ((raw2.filter (fun p => !p.2.isEmpty)).map Prod.fst).Nodup :=
    h3.sublist ((List.filter_sublist raw2).map Prod.fst)
  have hmem2 : (s, v) ∈ raw2.filter (fun p => !p.2.isEmpty) :=
    List.mem_filter.mpr ⟨hv, by simpa using hvne⟩
  have heq : (mergeRun (mergeRun st d disp1 raw1) d disp2 raw2).source_data s
      = upsertDay ((mergeRun st d disp1 raw1).source_data s) d disp2 v :=
    mergeArchive_eq_of_mem d disp2 _ _ s v hnd2 hmem2
  rw [heq] at hde
  exact articles_upsertDay _ d disp2 v (hB s) de hde hdd

/-- C1 counterexample: run 1 finds one `techcrunch` story on a date,
the rerun on the same date finds nothing for `techcrunch`.  After the
second merge the issue entry reflects the second run (no active
sources), but the archive day entry for `(techcrunch, date)` still
holds the first run's articles, so the surviving entries do not all
reflect the second run's data. -/
theorem idempotent_rerun_cex :
    ((mergeRun (mergeRun st0 "2025-06-01" "June 01, 2025" [("techcrunch", [storyA])])
        "2025-06-01" "June 01, 2025" [("techcrunch", [])]).source_data "techcrunch"
      = [⟨"2025-06-01", "June 01, 2025", [storyA]⟩])
    ∧ ((mergeRun (mergeRun st0 "2025-06-01" "June 01, 2025" [("techcrunch", [storyA])])
        "2025-06-01" "June 01, 2025" [("techcrunch", [])]).entries
      = [⟨"2025-06-01", "June 01, 2025", []⟩]) := by
  exact ⟨rfl, rfl⟩

/-- C1 witness: the amended theorem applied to the empty stores, with a
first run producing `storyA` and a rerun producing `storyB`. -/
theorem idempotent_rerun_witness :
    countDate (mergeRun (mergeRun st0 "2025-06-01" "June 01, 2025"
        [("techcrunch", [storyA])]) "2025-06-01" "June 01, 2025"
        [("techcrunch", [storyB]), ("rundown", [])]).entries "2025-06-01" = 1 :=
  (idempotent_rerun st0 "2025-06-01" "June 01, 2025" "June 01, 2025"
    [("techcrunch", [storyA])] [("techcrunch", [storyB]), ("rundown", [])]
    (by decide) (fun s => countDay_nil_le s "2025-06-01") (by decide)).1

/-- C4 counterexample: `__main__`'s persistence trace writes
`entries.json` (the Issue Index) first and `source_data.json` second,
both as direct in-place writes; the last event is not the Issue Index
write, and when the Source Archive write fails the Issue Index write
has already completed — so the Issue Index is neither written last nor
written via temporary-storage-then-swap. -/
theorem persistence_order_cex :
    ((mergeAndSave st0 "2025-06-01" "June 01, 2025" []).2
      = [WriteEvent.write StoreFile.entriesFile,
         WriteEvent.write StoreFile.sourceDataFile])
    ∧ ((mergeAndSave st0 "2025-06-01" "June 01, 2025" []).2.getLast?
      ≠ some (WriteEvent.write StoreFile.entriesFile))
    ∧ persistRun (mergeAndSave st0 "2025-06-01" "June 01, 2025" []).2
          (fun f => f == StoreFile.sourceDataFile)
        = [WriteEvent.write StoreFile.entriesFile] :=
  ⟨rfl, by decide, rfl⟩

/-- C4 (amended): the two stores are persisted by two sequential direct
writes, `entries.json` first and `source_data.json` second; a failure
of the `source_data.json` write leaves `entries.json` already written. -/
theorem persistence_order (st : Stores) (d disp : String)
    (raw : List (String × List Story)) :
    (mergeAndSave st d disp raw).2
      = [WriteEvent.write StoreFile.entriesFile,
         WriteEvent.write StoreFile.sourceDataFile]
    ∧ persistRun (mergeAndSave st d disp raw).2
        (fun f => f == StoreFile.sourceDataFile)
      = [WriteEvent.write StoreFile.entriesFile] :=
  ⟨rfl, rfl⟩

/-- C6: if source `A`'s fetch fails, any other source `B`'s scrape
result is unchanged, `B`'s run-result entry is still present as it
would have been, and the run still merges into exactly one issue entry
for the day. -/
theorem failure_isolation (env : Slug → SourceInput) (A B : Slug) (hAB : B ≠ A)
    (st : Stores) (d disp : String) (h1 : countDate st.entries d ≤ 1) :
    SCRAPERS B (Function.update env A fetchFailure B) = SCRAPERS B (env B)
    ∧ (slugStr B, SCRAPERS B (env B)) ∈ runScrapers (Function.update env A fetchFailure)
    ∧ countDate (mergeRun st d disp
        (runScrapers (Function.update env A fetchFailure))).entries d = 1 := by
  have hupd : Function.update env A fetchFailure B = env B :=
    Function.update_noteq hAB fetchFailure env
  refine ⟨by rw [hupd], ?_, countDate_mergeRun st d disp _ h1⟩
  have hBmem : B ∈ SLUG_ORDER := by cases B <;> simp [SLUG_ORDER]
  have hmem : (slugStr B, SCRAPERS B (Function.update env A fetchFailure B))
      ∈ runScrapers (Function.update env A fetchFailure) := by
    unfold runScrapers
    exact List.mem_map.mpr ⟨B, hBmem, rfl⟩
  rw [hupd] at hmem
  exact hmem

/-- C6 witness: the theorem applied with `techcrunch` failing,
`rundown` the unaffected source, starting from empty stores. -/
theorem failure_isolation_witness :
    SCRAPERS Slug.rundown
        (Function.update (fun _ => SourceInput.mk [] []) Slug.techcrunch fetchFailure
          Slug.rundown)
      = SCRAPERS Slug.rundown ((fun (_ : Slug) => SourceInput.mk [] []) Slug.rundown)
    ∧ countDate (mergeRun st0 "2025-06-01" "June 01, 2025"
        (runScrapers (Function.update (fun _ => SourceInput.mk [] [])
          Slug.techcrunch fetchFailure))).entries "2025-06-01" = 1 := by
  have h := failure_isolation (fun _ => SourceInput.mk [] [])
    Slug.techcrunch Slug.rundown (by decide) st0 "2025-06-01" "June 01, 2025" (by decide)
  exact ⟨h.1, h.2.2⟩

def dupItem1 : RssItem :=
  ⟨some "Duplicate headline one", some "https://ex.org/dup", none, []⟩

def dupItem2 : RssItem :=
  ⟨some "Duplicate headline two", some "https://ex.org/dup", none, []⟩

/-- C3 counterexample: the Feed extractor performs no link
deduplication — a feed whose two items carry the same link yields two
candidates with equal `link`, so the claim fails for the Feed
strategy. -/
theorem extractor_dedup_cex :
    ((scrape_techcrunch_ai [RssToken.item dupItem1, RssToken.item dupItem2]).map
        (fun s => s.link) = ["https://ex.org/dup", "https://ex.org/dup"])
    ∧ ¬ ((scrape_techcrunch_ai [RssToken.item dupItem1, RssToken.item dupItem2]).map
        (fun s => s.link)).Nodup := by
  exact ⟨rfl, by decide⟩

/-- C3 (amended): the PageScrape extractor's output contains no two
candidates with equal `link` (the `seen` set deduplicates by `href`);
the Feed extractor applies no such deduplication (see the
counterexample). -/
theorem extractor_dedup (toks : List PageToken) :
    ((scrape_rundown_ai toks).map (fun s => s.link)).Nodup := by
  unfold scrape_rundown_ai
  refine rundownGo_links_nodup toks [] [] (by simp) ?_
  intro s hs
  exact absurd hs (List.not_mem_nil s)

def promoAnchor : Anchor :=
  ⟨"/articles/register", some "Register by Friday — Save 20%", ""⟩

/-- C7 counterexample: `scrape_rundown_ai` has no promotional-phrase
blocklist — an anchor titled "Register by Friday — Save 20%" passes
the only checks performed (path, length, dedup) and is included
in the result, not excluded. -/
theorem promo_blocklist_cex :
    (scrape_rundown_ai [PageToken.anchor promoAnchor]).map (fun s => s.title)
      = ["Register by Friday — Save 20%"] := by
  rfl

/-- C7 (amended): the PageScrape extractor rejects an anchor only when
its `href` lacks the `/articles/` path, its title has length ≤ 10, or
its `href` was already seen; any anchor passing those checks — a
promotional title included — contributes its candidate to the result. -/
theorem promo_phrase_included (a : Anchor) (toks : List PageToken)
    (hpre : pyStartswith a.href "/articles/" = true)
    (hlen : 10 < (rundownTitle a).length) :
    rundownStory a ∈ scrape_rundown_ai (PageToken.anchor a :: toks) := by
  have hc : a.href ∉ ([] : List String) ∧ 10 < (rundownTitle a).length :=
    ⟨List.not_mem_nil a.href, hlen⟩
  have hstep : rundownStoriesStep [] [] a = [rundownStory a] := by
    unfold rundownStoriesStep
    rw [if_pos hc]
    rfl
  unfold scrape_rundown_ai
  simp only [rundownGo]
  rw [if_pos hpre]
  by_cases h6 : 6 ≤ (rundownStoriesStep [] [] a).length
  · rw [if_pos h6, hstep]
    exact List.mem_singleton.mpr rfl
  · rw [if_neg h6, hstep]
    obtain ⟨t, ht⟩ := rundownGo_grows toks (rundownSeenStep [] a) [rundownStory a]
    rw [ht]
    exact List.mem_append_left t (List.mem_singleton.mpr rfl)

/-- C7 witness: the amended theorem applied to the promotional anchor
itself. -/
theorem promo_phrase_included_witness :
    rundownStory promoAnchor ∈ scrape_rundown_ai [PageToken.anchor promoAnchor] :=
  promo_phrase_included promoAnchor [] (by decide) (by decide)

def midAnchor : Anchor :=
  ⟨"/articles/model-launch", some "Model launch announced today", ""⟩

/-- C8 counterexample: a parse-level exception hitting
`scrape_rundown_ai` after one anchor has been gathered yields that
partial one-element list, not an empty sequence. -/
theorem parse_failure_cex :
    (scrape_rundown_ai [PageToken.anchor midAnchor, PageToken.err]
      = [⟨"Model launch announced today",
          "https://www.therundown.ai/articles/model-launch", ""⟩])
    ∧ scrape_rundown_ai [PageToken.anchor midAnchor, PageToken.err] ≠ [] := by
  exact ⟨rfl, by decide⟩

/-- C8 (amended): a parse-level exception in the Feed pipeline makes
the whole extraction yield an empty sequence (the output is either
empty or a fully successful parse — never a partial list); the Rundown
PageScrape pipeline instead catches the exception and returns the
candidates gathered before it.  In both cases the exception is
swallowed inside the source's pipeline. -/
theorem parse_failure_handling :
    (∀ (toks : List RssToken) (limit : Nat) (f : Bool),
        feedScrape toks limit f = []
        ∨ parse_rss toks limit f = .ok (feedScrape toks limit f))
    ∧ (∀ (a : Anchor) (rest : List PageToken),
        pyStartswith a.href "/articles/" = true →
        10 < (rundownTitle a).length →
        scrape_rundown_ai (PageToken.anchor a :: PageToken.err :: rest)
          = [rundownStory a]) := by
  constructor
  · intro toks limit f
    unfold feedScrape
    cases h : parse_rss toks limit f with
    | ok l => exact Or.inr rfl
    | error e => exact Or.inl rfl
  · intro a rest hpre hlen
    have hc : a.href ∉ ([] : List String) ∧ 10 < (rundownTitle a).length :=
      ⟨List.not_mem_nil a.href, hlen⟩
    have hstep : rundownStoriesStep [] [] a = [rundownStory a] := by
      unfold rundownStoriesStep
      rw [if_pos hc]
      rfl
    unfold scrape_rundown_ai
    simp only [rundownGo]
    rw [if_pos hpre]
    by_cases h6 : 6 ≤ (rundownStoriesStep [] [] a).length
    · rw [if_pos h6, hstep]
    · rw [if_neg h6, hstep]

/-- C8 witness: the amended theorem at a failing feed stream and at a
page stream where the exception follows one accepted anchor. -/
theorem parse_failure_handling_witness :
    (feedScrape [RssToken.err] 6 false = []
      ∨ parse_rss [RssToken.err] 6 false = .ok (feedScrape [RssToken.err] 6 false))
    ∧ scrape_rundown_ai [PageToken.anchor midAnchor, PageToken.err]
        = [rundownStory midAnchor] :=
  ⟨parse_failure_handling.1 [RssToken.err] 6 false,
   parse_failure_handling.2 midAnchor [] (by decide) (by decide)⟩

def longTitle : String := ⟨List.replicate 121 'a'⟩

def longAnchor : Anchor := ⟨"/articles/long-title", some longTitle, ""⟩

set_option maxRecDepth 8000 in
/-- C9 counterexample: a PageScrape anchor whose `<p>` child carries a
121-character text yields a candidate whose title has 121 characters —
the `[:120]` cut of line 165 applies only in the no-`<p>` branch, so
the ≤ 120 bound fails. -/
theorem candidate_bounds_cex :
    ((scrape_rundown_ai [PageToken.anchor longAnchor]).map
        (fun s => s.title.length) = [121])
    ∧ (scrape_rundown_ai [PageToken.anchor longAnchor]).any
        (fun s => decide (120 < s.title.length)) = true := by
  exact ⟨by decide, by decide⟩

/-- C9 (amended): every Feed candidate has a title of at most 120
characters and a summary of at most 220; every PageScrape candidate
has an empty summary, and its title is bounded by 120 whenever it is
derived from the anchor's own text (no `<p>` child) — a `<p>`-derived
title is not truncated (see the counterexample). -/
theorem candidate_bounds :
    (∀ (toks : List RssToken) (limit : Nat) (f : Bool) (s : Story),
        s ∈ feedScrape toks limit f →
        s.title.length ≤ 120 ∧ s.summary.length ≤ 220)
    ∧ (∀ (toks : List PageToken) (s : Story),
        s ∈ scrape_rundown_ai toks → s.summary = "")
    ∧ (∀ (toks : List PageToken),
        (∀ a, PageToken.anchor a ∈ toks → a.pText = none) →
        ∀ s ∈ scrape_rundown_ai toks, s.title.length ≤ 120) := by
  refine ⟨?_, ?_, ?_⟩
  · intro toks limit f s hs
    unfold feedScrape at hs
    cases h : parse_rss toks limit f with
    | ok l =>
      rw [h] at hs
      exact parseRssGo_bounds f limit toks [] l
        (fun s hs0 => absurd hs0 (List.not_mem_nil s)) h s hs
    | error e =>
      rw [h] at hs
      exact absurd hs (List.not_mem_nil s)
  · intro toks s hs
    rcases rundownGo_mem_src toks [] [] s hs with h | ⟨a, _, rfl⟩
    · exact absurd h (List.not_mem_nil s)
    · rfl
  · intro toks hnone s hs
    rcases rundownGo_mem_src toks [] [] s hs with h | ⟨a, ha, rfl⟩
    · exact absurd h (List.not_mem_nil s)
    · exact rundownTitle_le_of_none (hnone a ha)

def noPAnchor : Anchor := ⟨"/articles/plain", none, "Plain anchor text headline"⟩

def plainItem : RssItem :=
  ⟨some "Headline story", some "https://ex.org/h", some "A summary", []⟩

/-- C9 witness: the amended theorem applied to a concrete feed story,
to a concrete PageScrape story, and to a page whose anchors all lack a
`<p>` child. -/
theorem candidate_bounds_witness :
    ((Story.mk "Headline story" "https://ex.org/h" "A summary").title.length ≤ 120
      ∧ (Story.mk "Headline story" "https://ex.org/h" "A summary").summary.length ≤ 220)
    ∧ (rundownStory midAnchor).summary = ""
    ∧ (rundownStory noPAnchor).title.length ≤ 120 :=
  ⟨candidate_bounds.1 [RssToken.item plainItem] 6 false
      (Story.mk "Headline story" "https://ex.org/h" "A summary") (by decide),
   candidate_bounds.2.1 [PageToken.anchor midAnchor] (rundownStory midAnchor) (by decide),
   candidate_bounds.2.2 [PageToken.anchor noPAnchor]
     (by
       intro a ha
       rw [List.mem_singleton] at ha
       injection ha with h2
       rw [h2]
       rfl)
     (rundownStory noPAnchor) (by decide)⟩

/-- C10: under both strategies, for every source and every fetched
content, the sequence of story candidates produced for that source has
length at most 6 (the configured per-source cap). -/
theorem cap_enforcement (sl : Slug) (inp : SourceInput) :
    (SCRAPERS sl inp).length ≤ 6 := by
  have hfeed : ∀ (toks : List RssToken) (f : Bool), (feedScrape toks 6 f).length ≤ 6 := by
    intro toks f
    unfold feedScrape
    cases h : parse_rss toks 6 f with
    | ok l => exact parseRssGo_length f 6 toks [] l (by decide) h
    | error e => exact Nat.zero_le 6
  have hrun : ∀ toks : List PageToken, (scrape_rundown_ai toks).length ≤ 6 :=
    fun toks => rundownGo_length_le toks [] [] (by decide)
  cases sl
  · exact hfeed inp.rss false
  · exact hrun inp.page
  · exact hfeed inp.rss false
  · exact hfeed inp.rss true
  · exact hfeed inp.rss false
  · exact hfeed inp.rss false

end Briefing
